import Mathlib

/-!
Verification of the sync-worker library (src/lib) against its specification.

The embedding translates the TypeScript sources directly:
- JavaScript `Map` objects become association lists with JS-Map semantics
  (setting an existing key updates the entry in place, a new key is appended,
  iteration follows insertion order).
- The collaborator-supplied behaviour (`getId`, `isEqual`, `clean`,
  `applyPatches`) is a parameter structure, as these are injected functions.
- `util.ts` helpers keep the JavaScript return values: `applyDelete` returns
  either the old document (a truthy object) or the boolean `false`, modelled
  by the sum type `JsRet`.
- The asynchronous `save()` is modelled with its two suspension points made
  explicit: the lists of notifications arriving while each collaborator
  promise is pending are parameters, and the boolean outcome of each
  collaborator save is a parameter.
- The possibility that a client-store mutation throws (plain JavaScript
  exceptions, nothing in `SyncClient.workerChanged` catches them) is modelled
  for `workerChanged` by a predicate selecting the throwing applications; the
  returned flag records whether an exception propagated.
-/

namespace SyncW

universe u v

variable {κ : Type u} {α : Type v}

/-- JS `Map.get`. -/
def mapGet [DecidableEq κ] : List (κ × α) → κ → Option α
  | [], _ => none
  | e :: rest, k => if e.1 = k then some e.2 else mapGet rest k

/-- JS `Map.set`: update in place when the key exists, append otherwise. -/
def mapSet [DecidableEq κ] : List (κ × α) → κ → α → List (κ × α)
  | [], k, v => [(k, v)]
  | e :: rest, k, v => if e.1 = k then (k, v) :: rest else e :: mapSet rest k v

/-- JS `Map.delete`. -/
def mapDel [DecidableEq κ] : List (κ × α) → κ → List (κ × α)
  | [], _ => []
  | e :: rest, k => if e.1 = k then mapDel rest k else e :: mapDel rest k

/-- The keys of an association map are pairwise distinct. -/
def keysND (m : List (κ × α)) : Prop := (m.map Prod.fst).Nodup

variable {Coll : Type} {Id : Type} {Doc : Type} {ChangeId : Type} {Patch : Type}

/-- The injected collaborator behaviour: `TDbBase.getId` and `TDbBase.isEqual`,
the worker replica's `clean`, and the patch engine `applyPatches`. -/
structure EngineOps (Coll Id Doc Patch : Type) where
  getId : Doc → Id
  isEqual : Doc → Doc → Bool
  clean : Doc → Doc
  applyPatches : Doc → List Patch → Doc

/-- A store's state: documents keyed by (collection, document id). -/
abbrev Store (Coll Id Doc : Type) := List ((Coll × Id) × Doc)

def storeGet [DecidableEq Coll] [DecidableEq Id]
    (s : Store Coll Id Doc) (c : Coll) (i : Id) : Option Doc :=
  mapGet s (c, i)

def storeSet [DecidableEq Coll] [DecidableEq Id]
    (ops : EngineOps Coll Id Doc Patch) (s : Store Coll Id Doc) (c : Coll) (d : Doc) :
    Store Coll Id Doc :=
  mapSet s (c, ops.getId d) d

def storeDel [DecidableEq Coll] [DecidableEq Id]
    (s : Store Coll Id Doc) (c : Coll) (i : Id) : Store Coll Id Doc :=
  mapDel s (c, i)

/-- `TWorkerDb.ids`: the ids stored in one collection, in insertion order. -/
def storeIds [DecidableEq Coll]
    (s : Store Coll Id Doc) (c : Coll) : List Id :=
  (s.filter (fun e => decide (e.1.1 = c))).map (fun e => e.1.2)

/-- The value a `util.ts` helper returns: either a document (truthy in JS)
or a boolean. -/
inductive JsRet (Doc : Type) where
  | doc (d : Doc)
  | bool (b : Bool)
deriving DecidableEq

/-- JS truthiness of a `JsRet` value: objects are truthy. -/
def jsTruthy : JsRet Doc → Bool
  | .doc _ => true
  | .bool b => b

/-- `util.ts` `applyDelete`: when a document exists at the id it is deleted and
the old document is returned; otherwise the boolean `false` is returned. -/
def applyDelete [DecidableEq Coll] [DecidableEq Id]
    (s : Store Coll Id Doc) (c : Coll) (i : Id) : JsRet Doc × Store Coll Id Doc :=
  match storeGet s c i with
  | some oldDoc => (.doc oldDoc, storeDel s c i)
  | none => (.bool false, s)

/-- `util.ts` `applySet`: writes the document when it is absent or structurally
different from the stored one, reporting whether a write happened. -/
def applySet [DecidableEq Coll] [DecidableEq Id]
    (ops : EngineOps Coll Id Doc Patch) (s : Store Coll Id Doc) (c : Coll) (d : Doc) :
    Bool × Store Coll Id Doc :=
  match storeGet s c (ops.getId d) with
  | some oldDoc =>
    if ops.isEqual d oldDoc then (false, s) else (true, storeSet ops s c d)
  | none => (true, storeSet ops s c d)

/-- `TDbChangeType`. -/
inductive DbChangeType where
  | set
  | delete
deriving DecidableEq

/-- `util.ts` `applyChange`: dispatch on the change type. -/
def applyChange [DecidableEq Coll] [DecidableEq Id]
    (ops : EngineOps Coll Id Doc Patch) (s : Store Coll Id Doc)
    (ty : DbChangeType) (c : Coll) (d : Doc) : JsRet Doc × Store Coll Id Doc :=
  match ty with
  | .delete => applyDelete s c (ops.getId d)
  | .set => (JsRet.bool (applySet ops s c d).1, (applySet ops s c d).2)

namespace OptimisticChangeIds

/-- `OptimisticChangeIds.remove`: the returned boolean together with the
updated map of tracked change ids. The JS comparison
`changeId === ids.get(docId)` compares the optional argument with the tracked
id. -/
def remove [DecidableEq Id] [DecidableEq ChangeId]
    (ids : List (Id × ChangeId)) (docId : Id) (changeId : Option ChangeId) :
    Bool × List (Id × ChangeId) :=
  match mapGet ids docId with
  | none => (true, ids)
  | some tracked =>
    if changeId = some tracked then (true, mapDel ids docId) else (false, ids)

end OptimisticChangeIds

/-- `TOptimisticChange`: a client change tagged with a change id. -/
inductive OptimisticChange (Coll Doc ChangeId Patch : Type) where
  | upsert (id : ChangeId) (collection : Coll) (doc : Doc) (patches : List Patch)
  | delete (id : ChangeId) (collection : Coll) (doc : Doc)
deriving DecidableEq

/-- `TServerChange`. -/
inductive ServerChange (Coll Doc : Type) where
  | set (collection : Coll) (doc : Doc)
  | delete (collection : Coll) (doc : Doc)
deriving DecidableEq

/-- `TWorkerChange`: the change id is optional. -/
inductive WorkerChange (Coll Doc ChangeId : Type) where
  | set (id : Option ChangeId) (collection : Coll) (doc : Doc)
  | delete (id : Option ChangeId) (collection : Coll) (doc : Doc)
deriving DecidableEq

/-- `TDbChange`: a change as shipped to the server replica. -/
inductive DbChange (Coll Doc Patch : Type) where
  | upsert (collection : Coll) (doc : Doc) (patches : List Patch)
  | delete (collection : Coll) (doc : Doc)
deriving DecidableEq

def wcId : WorkerChange Coll Doc ChangeId → Option ChangeId
  | .set i _ _ => i
  | .delete i _ _ => i

def wcColl : WorkerChange Coll Doc ChangeId → Coll
  | .set _ c _ => c
  | .delete _ c _ => c

def wcDoc : WorkerChange Coll Doc ChangeId → Doc
  | .set _ _ d => d
  | .delete _ _ d => d

def wcType : WorkerChange Coll Doc ChangeId → DbChangeType
  | .set _ _ _ => .set
  | .delete _ _ _ => .delete

/-- `SyncClient` state: the client store, the `OptimisticChangeIds` map and the
`applyingWorkerChanges` re-entrancy flag. -/
structure CState (Coll Id Doc ChangeId : Type) where
  clientDb : Store Coll Id Doc
  trackedIds : List (Id × ChangeId)
  applyingWorkerChanges : Bool
deriving DecidableEq

namespace SyncClient

/-- Loop body of `SyncClient.workerChanged`. `applyFails` selects the worker
changes whose application to the client store throws; the boolean result is
`true` when an exception propagated out of the loop. The source toggles the
flag manually with no try/finally, so the final flag assignment is only
reached on the normal path. -/
def workerChangedGo [DecidableEq Coll] [DecidableEq Id] [DecidableEq ChangeId]
    (ops : EngineOps Coll Id Doc Patch)
    (applyFails : WorkerChange Coll Doc ChangeId → Bool) :
    CState Coll Id Doc ChangeId → List (WorkerChange Coll Doc ChangeId) →
    CState Coll Id Doc ChangeId × Bool
  | s, [] => ({ s with applyingWorkerChanges := false }, false)
  | s, ch :: rest =>
    let i := ops.getId (wcDoc ch)
    let r := OptimisticChangeIds.remove s.trackedIds i (wcId ch)
    let s1 := { s with trackedIds := r.2 }
    if r.1 then
      if applyFails ch then (s1, true)
      else
        workerChangedGo ops applyFails
          { s1 with
            clientDb := (applyChange ops s1.clientDb (wcType ch) (wcColl ch) (wcDoc ch)).2 }
          rest
    else workerChangedGo ops applyFails s1 rest

/-- `SyncClient.workerChanged`: sets the re-entrancy flag, runs the loop. -/
def workerChanged [DecidableEq Coll] [DecidableEq Id] [DecidableEq ChangeId]
    (ops : EngineOps Coll Id Doc Patch)
    (applyFails : WorkerChange Coll Doc ChangeId → Bool)
    (s : CState Coll Id Doc ChangeId) (chs : List (WorkerChange Coll Doc ChangeId)) :
    CState Coll Id Doc ChangeId × Bool :=
  workerChangedGo ops applyFails { s with applyingWorkerChanges := true } chs

end SyncClient

/-- `SyncWorker` state: the worker store, the `clientChanges` map of pending
local changes keyed by document id, and the two buffer queues that are
non-null exactly while a save is in flight. -/
structure WState (Coll Id Doc ChangeId Patch : Type) where
  workerDb : Store Coll Id Doc
  clientChanges : List (Id × OptimisticChange Coll Doc ChangeId Patch)
  pendingClient : Option (List (OptimisticChange Coll Doc ChangeId Patch))
  pendingServer : Option (List (ServerChange Coll Doc))
deriving DecidableEq

/-- The worker emits a batch only when it is non-empty
(`if (workerChanges.length) this.emit(...)`). -/
def emitOpt (l : List α) : Option (List α) := if l.isEmpty then none else some l

namespace SyncWorker

/-- One iteration of the `optimisticChanges.forEach` loop in
`SyncWorker.clientChanged`. The accumulator is the worker store, the
`clientChanges` map and the `workerChangesById` map. -/
def clientStep [DecidableEq Coll] [DecidableEq Id]
    (ops : EngineOps Coll Id Doc Patch)
    (acc : Store Coll Id Doc ×
      List (Id × OptimisticChange Coll Doc ChangeId Patch) ×
      List (Id × WorkerChange Coll Doc ChangeId))
    (oc : OptimisticChange Coll Doc ChangeId Patch) :
    Store Coll Id Doc ×
      List (Id × OptimisticChange Coll Doc ChangeId Patch) ×
      List (Id × WorkerChange Coll Doc ChangeId) :=
  match acc, oc with
  | (db, cc, out), .delete chid c clientDoc =>
    let docId := ops.getId clientDoc
    ((applyDelete db c docId).2,
     mapSet cc docId (OptimisticChange.delete chid c clientDoc), out)
  | (db, cc, out), .upsert chid c clientDoc patches =>
    let docId := ops.getId clientDoc
    let dbOut : Store Coll Id Doc × List (Id × WorkerChange Coll Doc ChangeId) :=
      match storeGet db c docId with
      | some oldDoc =>
        let newDoc := ops.applyPatches oldDoc patches
        ((applySet ops db c newDoc).2,
         if ops.isEqual newDoc clientDoc then out
         else mapSet out docId (WorkerChange.set (some chid) c newDoc))
      | none => ((applySet ops db c clientDoc).2, out)
    let v : OptimisticChange Coll Doc ChangeId Patch :=
      match mapGet cc docId with
      | some (OptimisticChange.upsert _ _ _ oldPatches) =>
        OptimisticChange.upsert chid c clientDoc (oldPatches ++ patches)
      | _ => OptimisticChange.upsert chid c clientDoc patches
    (dbOut.1, mapSet cc docId v, dbOut.2)

/-- The loop of `SyncWorker.clientChanged` over a batch. -/
def clientRun [DecidableEq Coll] [DecidableEq Id]
    (ops : EngineOps Coll Id Doc Patch)
    (db : Store Coll Id Doc)
    (cc : List (Id × OptimisticChange Coll Doc ChangeId Patch))
    (ocs : List (OptimisticChange Coll Doc ChangeId Patch)) :
    Store Coll Id Doc ×
      List (Id × OptimisticChange Coll Doc ChangeId Patch) ×
      List (Id × WorkerChange Coll Doc ChangeId) :=
  ocs.foldl (clientStep ops) (db, cc, [])

/-- `SyncWorker.clientChanged`: buffer while a save is in flight, otherwise
run the loop and emit the non-empty outgoing batch. -/
def clientChanged [DecidableEq Coll] [DecidableEq Id]
    (ops : EngineOps Coll Id Doc Patch)
    (s : WState Coll Id Doc ChangeId Patch)
    (ocs : List (OptimisticChange Coll Doc ChangeId Patch)) :
    WState Coll Id Doc ChangeId Patch × Option (List (WorkerChange Coll Doc ChangeId)) :=
  match s.pendingClient with
  | some buf => ({ s with pendingClient := some (buf ++ ocs) }, none)
  | none =>
    let r := clientRun ops s.workerDb s.clientChanges ocs
    ({ s with workerDb := r.1, clientChanges := r.2.1 },
     emitOpt (r.2.2.map Prod.snd))

/-- One iteration of the `serverChanges.forEach` loop in `SyncWorker.changed`.
The `clientChanges` map is only read there, so it is a fixed parameter. -/
def serverStep [DecidableEq Coll] [DecidableEq Id]
    (ops : EngineOps Coll Id Doc Patch)
    (cc : List (Id × OptimisticChange Coll Doc ChangeId Patch))
    (acc : Store Coll Id Doc × List (Id × WorkerChange Coll Doc ChangeId))
    (sc : ServerChange Coll Doc) :
    Store Coll Id Doc × List (Id × WorkerChange Coll Doc ChangeId) :=
  match sc with
  | .set c serverDoc =>
    let docId := ops.getId serverDoc
    match mapGet cc docId with
    | some (OptimisticChange.upsert chid _ ccDoc patches) =>
      let newDoc := ops.applyPatches serverDoc patches
      ((applySet ops acc.1 c newDoc).2,
       if ops.isEqual newDoc ccDoc then acc.2
       else mapSet acc.2 docId (WorkerChange.set (some chid) c newDoc))
    | some (OptimisticChange.delete _ _ _) => acc
    | none =>
      let r := applyChange ops acc.1 .set c serverDoc
      (r.2,
       if jsTruthy r.1 then mapSet acc.2 docId (WorkerChange.set none c serverDoc)
       else acc.2)
  | .delete c serverDoc =>
    let docId := ops.getId serverDoc
    match mapGet cc docId with
    | some _ => acc
    | none =>
      let r := applyChange ops acc.1 .delete c serverDoc
      (r.2,
       if jsTruthy r.1 then mapSet acc.2 docId (WorkerChange.delete none c serverDoc)
       else acc.2)

/-- The loop of `SyncWorker.changed` over a batch. -/
def serverRun [DecidableEq Coll] [DecidableEq Id]
    (ops : EngineOps Coll Id Doc Patch)
    (cc : List (Id × OptimisticChange Coll Doc ChangeId Patch))
    (db : Store Coll Id Doc) (scs : List (ServerChange Coll Doc)) :
    Store Coll Id Doc × List (Id × WorkerChange Coll Doc ChangeId) :=
  scs.foldl (serverStep ops cc) (db, [])

/-- `SyncWorker.changed`: buffer while a save is in flight, otherwise run the
loop and emit the non-empty outgoing batch. -/
def changed [DecidableEq Coll] [DecidableEq Id]
    (ops : EngineOps Coll Id Doc Patch)
    (s : WState Coll Id Doc ChangeId Patch)
    (scs : List (ServerChange Coll Doc)) :
    WState Coll Id Doc ChangeId Patch × Option (List (WorkerChange Coll Doc ChangeId)) :=
  match s.pendingServer with
  | some buf => ({ s with pendingServer := some (buf ++ scs) }, none)
  | none =>
    let r := serverRun ops s.clientChanges s.workerDb scs
    ({ s with workerDb := r.1 }, emitOpt (r.2.map Prod.snd))

/-- `SyncWorker.compact`: synthesise a delete for every worker document of the
collection whose id the server does not know, and feed the batch through
`changed`. Ids returned by `storeIds` always have a stored document, so the
`map` over `workerDb.get` is a `filterMap` here. -/
def compact [DecidableEq Coll] [DecidableEq Id]
    (ops : EngineOps Coll Id Doc Patch)
    (s : WState Coll Id Doc ChangeId Patch)
    (c : Coll) (ids : List Id) :
    WState Coll Id Doc ChangeId Patch × Option (List (WorkerChange Coll Doc ChangeId)) :=
  let changes := (storeIds s.workerDb c).filterMap (fun i =>
    if i ∈ ids then none
    else (storeGet s.workerDb c i).map (fun d => ServerChange.delete c (ops.clean d)))
  if changes.isEmpty then (s, none) else changed ops s changes

/-- A notification delivered by the event loop while a `save()` promise is
pending: either a client batch (through `clientChanged`) or a server batch
(through `changed`). -/
inductive ArrEvent (Coll Doc ChangeId Patch : Type) where
  | client (batch : List (OptimisticChange Coll Doc ChangeId Patch))
  | server (batch : List (ServerChange Coll Doc))
deriving DecidableEq

/-- Deliver one pending-window notification to the engine. -/
def dispatch [DecidableEq Coll] [DecidableEq Id]
    (ops : EngineOps Coll Id Doc Patch)
    (s : WState Coll Id Doc ChangeId Patch) :
    ArrEvent Coll Doc ChangeId Patch →
    WState Coll Id Doc ChangeId Patch × Option (List (WorkerChange Coll Doc ChangeId))
  | .client b => clientChanged ops s b
  | .server b => changed ops s b

/-- Deliver a sequence of pending-window notifications, collecting every
batch the engine emitted while doing so. -/
def processEvents [DecidableEq Coll] [DecidableEq Id]
    (ops : EngineOps Coll Id Doc Patch) :
    WState Coll Id Doc ChangeId Patch → List (ArrEvent Coll Doc ChangeId Patch) →
    WState Coll Id Doc ChangeId Patch × List (List (WorkerChange Coll Doc ChangeId))
  | s, [] => (s, [])
  | s, e :: rest =>
    let p := dispatch ops s e
    let q := processEvents ops p.1 rest
    (q.1, p.2.toList ++ q.2)

/-- The client batches contained in a sequence of pending-window events,
concatenated in arrival order. -/
def collectC : List (ArrEvent Coll Doc ChangeId Patch) →
    List (OptimisticChange Coll Doc ChangeId Patch)
  | [] => []
  | .client b :: rest => b ++ collectC rest
  | .server _ :: rest => collectC rest

/-- The server batches contained in a sequence of pending-window events,
concatenated in arrival order. -/
def collectS : List (ArrEvent Coll Doc ChangeId Patch) → List (ServerChange Coll Doc)
  | [] => []
  | .client _ :: rest => collectS rest
  | .server b :: rest => b ++ collectS rest

/-- The batch `save()` ships to the server replica, built from the
`clientChanges` map: a delete record is forwarded as is, an upsert record
re-reads the current worker document and cleans it. The source asserts the
looked-up document non-null (`as TDoc`); when it is absent the record's own
document is cleaned instead. -/
def buildServerChanges [DecidableEq Coll] [DecidableEq Id]
    (ops : EngineOps Coll Id Doc Patch)
    (db : Store Coll Id Doc)
    (cc : List (Id × OptimisticChange Coll Doc ChangeId Patch)) :
    List (DbChange Coll Doc Patch) :=
  (cc.map Prod.snd).map (fun change =>
    match change with
    | .delete _ c d => DbChange.delete c d
    | .upsert _ c d patches =>
      match storeGet db c (ops.getId d) with
      | some workerDoc => DbChange.upsert c (ops.clean workerDoc) patches
      | none => DbChange.upsert c (ops.clean d) patches)

/-- Everything observable about one `save()` call: the final engine state,
the batches emitted during the call, the batch passed to the server replica's
`save` (`none` when it was never invoked) and whether the returned promise
resolved. -/
structure SaveResult (Coll Id Doc ChangeId Patch : Type) where
  state : WState Coll Id Doc ChangeId Patch
  emitted : List (List (WorkerChange Coll Doc ChangeId))
  sent : Option (List (DbChange Coll Doc Patch))
  ok : Bool
deriving DecidableEq

/-- The `finally` block of `save()`: null both buffers, then replay the
captured buffered batches, first through `clientChanged`, then through
`changed`. -/
def drain [DecidableEq Coll] [DecidableEq Id]
    (ops : EngineOps Coll Id Doc Patch)
    (s : WState Coll Id Doc ChangeId Patch) :
    WState Coll Id Doc ChangeId Patch × List (List (WorkerChange Coll Doc ChangeId)) :=
  let pc := s.pendingClient.getD []
  let ps := s.pendingServer.getD []
  let s0 : WState Coll Id Doc ChangeId Patch :=
    ⟨s.workerDb, s.clientChanges, none, none⟩
  let p := clientChanged ops s0 pc
  let q := changed ops p.1 ps
  (q.1, p.2.toList ++ q.2.toList)

/-- `SyncWorker.save()` with the event-loop interleaving explicit: enter
buffering mode, suspend on `workerDb.save()` (during which the events `arr1`
arrive and `workerOk` is its outcome); on success build the server batch from
the current `clientChanges`, suspend on `serverDb.save(batch)` (during which
`arr2` arrives and `serverOk` is its outcome), clearing `clientChanges` only
on success; in every case run the `finally` drain. A rejection anywhere is
rethrown (`ok := false`). -/
def save [DecidableEq Coll] [DecidableEq Id]
    (ops : EngineOps Coll Id Doc Patch)
    (s : WState Coll Id Doc ChangeId Patch)
    (workerOk : Bool) (arr1 : List (ArrEvent Coll Doc ChangeId Patch))
    (serverOk : Bool) (arr2 : List (ArrEvent Coll Doc ChangeId Patch)) :
    SaveResult Coll Id Doc ChangeId Patch :=
  let s1 : WState Coll Id Doc ChangeId Patch :=
    ⟨s.workerDb, s.clientChanges, some [], some []⟩
  let p1 := processEvents ops s1 arr1
  if workerOk then
    let batch := buildServerChanges ops p1.1.workerDb p1.1.clientChanges
    let p2 := processEvents ops p1.1 arr2
    if serverOk then
      let dr := drain ops { p2.1 with clientChanges := [] }
      ⟨dr.1, p1.2 ++ p2.2 ++ dr.2, some batch, true⟩
    else
      let dr := drain ops p2.1
      ⟨dr.1, p1.2 ++ p2.2 ++ dr.2, some batch, false⟩
  else
    let dr := drain ops p1.1
    ⟨dr.1, p1.2 ++ dr.2, none, false⟩

end SyncWorker

/-- A concrete collaborator instantiation used by the witnesses: collections,
ids, change ids and patches are numbers, a document is an (id, value) pair,
a patch adds its value to the document value. -/
def ops0 : EngineOps Nat Nat (Nat × Nat) Nat where
  getId := Prod.fst
  isEqual := fun a b => decide (a = b)
  clean := fun d => d
  applyPatches := fun d ps => (d.1, d.2 + ps.foldl (fun a b => a + b) 0)

/-! ### Association-map lemmas -/

theorem mapGet_mapSet_self [DecidableEq κ] (m : List (κ × α)) (k : κ) (v : α) :
    mapGet (mapSet m k v) k = some v := by
  induction m with
  | nil => simp [mapSet, mapGet]
  | cons e rest ih =>
    by_cases h : e.1 = k
    · simp [mapSet, h, mapGet]
    · simp [mapSet, h, mapGet, ih]

theorem mapGet_mapSet_ne [DecidableEq κ] (m : List (κ × α)) (k k' : κ) (v : α)
    (h : k' ≠ k) : mapGet (mapSet m k v) k' = mapGet m k' := by
  have hk : ¬ k = k' := fun h' => h h'.symm
  induction m with
  | nil => simp [mapSet, mapGet, hk]
  | cons e rest ih =>
    by_cases he : e.1 = k
    · have he' : ¬ e.1 = k' := fun hx => h (hx ▸ he : k' = k)
      simp [mapSet, he, mapGet, hk, he']
    · by_cases he' : e.1 = k'
      · simp [mapSet, he, mapGet, he', h]
      · simp [mapSet, he, mapGet, he', ih]

theorem mapGet_mapDel_self [DecidableEq κ] (m : List (κ × α)) (k : κ) :
    mapGet (mapDel m k) k = none := by
  induction m with
  | nil => simp [mapDel, mapGet]
  | cons e rest ih =>
    by_cases h : e.1 = k
    · simp [mapDel, h, ih]
    · simp [mapDel, h, mapGet, ih]

theorem mapGet_mapSet_isSome [DecidableEq κ] (m : List (κ × α)) (k d : κ) (v : α)
    (h : (mapGet m d).isSome) : (mapGet (mapSet m k v) d).isSome := by
  by_cases hd : d = k
  · subst hd; simp [mapGet_mapSet_self]
  · rwa [mapGet_mapSet_ne m k d v hd]

theorem mem_keys_mapSet [DecidableEq κ] (m : List (κ × α)) (k a : κ) (v : α)
    (h : a ∈ (mapSet m k v).map Prod.fst) : a = k ∨ a ∈ m.map Prod.fst := by
  induction m with
  | nil => simpa [mapSet] using h
  | cons e rest ih =>
    by_cases he : e.1 = k
    · simp only [mapSet, he, if_true, List.map_cons, List.mem_cons] at h
      rcases h with h | h
      · exact Or.inl h
      · exact Or.inr (by simp [h])
    · simp only [mapSet, he, if_false, List.map_cons, List.mem_cons] at h
      rcases h with h | h
      · exact Or.inr (by simp [h])
      · rcases ih h with h' | h'
        · exact Or.inl h'
        · exact Or.inr (by simp [h'])

theorem mapSet_keysND [DecidableEq κ] (m : List (κ × α)) (k : κ) (v : α)
    (h : keysND m) : keysND (mapSet m k v) := by
  induction m with
  | nil => simp [keysND, mapSet]
  | cons e rest ih =>
    simp only [keysND, List.map_cons, List.nodup_cons] at h
    by_cases he : e.1 = k
    · simp only [keysND, mapSet, if_pos he, List.map_cons, List.nodup_cons]
      refine ⟨?_, h.2⟩
      intro hmem
      exact (he ▸ h.1) hmem
    · have h2 := ih h.2
      simp only [keysND, mapSet, if_neg he, List.map_cons, List.nodup_cons]
      refine ⟨fun hmem => ?_, h2⟩
      rcases mem_keys_mapSet rest k e.1 v hmem with h' | h'
      · exact he h'
      · exact h.1 h'

/-! ### C4: Change-Id Tracker remove -/

/-- C4: `remove(d, c)` returns true exactly when no id is tracked for `d` or
the tracked id equals `c`; in the matching case the tracked id for `d` is
cleared, while in the untracked case the map is unchanged. It returns false,
leaving the map unchanged, whenever a different id is tracked — in particular
when `c` is absent while an id is tracked. -/
theorem C4_remove_contract [DecidableEq Id] [DecidableEq ChangeId]
    (ids : List (Id × ChangeId)) (docId : Id) (changeId : Option ChangeId) :
    (mapGet ids docId = none →
      OptimisticChangeIds.remove ids docId changeId = (true, ids)) ∧
    (∀ t, mapGet ids docId = some t → changeId = some t →
      (OptimisticChangeIds.remove ids docId changeId).1 = true ∧
      mapGet (OptimisticChangeIds.remove ids docId changeId).2 docId = none) ∧
    (∀ t, mapGet ids docId = some t → changeId ≠ some t →
      OptimisticChangeIds.remove ids docId changeId = (false, ids)) := by
  refine ⟨fun h => ?_, fun t ht hc => ?_, fun t ht hc => ?_⟩
  · simp [OptimisticChangeIds.remove, h]
  · simp [OptimisticChangeIds.remove, ht, hc, mapGet_mapDel_self]
  · simp [OptimisticChangeIds.remove, ht, hc]

theorem C4_remove_contract_witness :
    (OptimisticChangeIds.remove [((1 : Nat), (10 : Nat)), (2, 20)] 1 (some 10)).1 = true ∧
    mapGet (OptimisticChangeIds.remove [((1 : Nat), (10 : Nat)), (2, 20)] 1 (some 10)).2 1 = none := by
  have h := C4_remove_contract [((1 : Nat), (10 : Nat)), (2, 20)] 1 (some 10)
  exact h.2.1 10 (by decide) (by decide)

/-! ### C8: applyDelete return value -/

/-- C8 fails as stated: at a store holding document (1, 5) at id 1,
`applyDelete` returns the old document itself — a truthy value, but not the
boolean `true` the claim asserts. -/
theorem C8_counterexample :
    storeGet [(((0 : Nat), (1 : Nat)), ((1 : Nat), (5 : Nat)))] 0 1 = some (1, 5) ∧
    (applyDelete [(((0 : Nat), (1 : Nat)), ((1 : Nat), (5 : Nat)))] 0 1).1 ≠ JsRet.bool true := by
  decide

/-- C8 (amended): when a document exists at the id, `applyDelete` deletes it
and returns the old document — a truthy value rather than the literal boolean
`true`; when no document exists it returns the boolean `false` with no
mutation. -/
theorem C8_applyDelete_amended [DecidableEq Coll] [DecidableEq Id]
    (s : Store Coll Id Doc) (c : Coll) (i : Id) :
    (∀ d, storeGet s c i = some d →
      applyDelete s c i = (JsRet.doc d, storeDel s c i) ∧
      jsTruthy (JsRet.doc d) = true ∧
      storeGet (applyDelete s c i).2 c i = none) ∧
    (storeGet s c i = none → applyDelete s c i = (JsRet.bool false, s)) := by
  constructor
  · intro d hd
    have hd' : mapGet s (c, i) = some d := hd
    refine ⟨by simp [applyDelete, storeGet, hd'], rfl, ?_⟩
    simp [applyDelete, storeGet, hd', storeDel, mapGet_mapDel_self]
  · intro h
    have h' : mapGet s (c, i) = none := h
    simp [applyDelete, storeGet, h']

theorem C8_applyDelete_amended_witness :
    applyDelete [(((0 : Nat), (1 : Nat)), ((1 : Nat), (5 : Nat)))] 0 1 =
      (JsRet.doc (1, 5), []) ∧
    jsTruthy (JsRet.doc ((1 : Nat), (5 : Nat))) = true := by
  have h := C8_applyDelete_amended [(((0 : Nat), (1 : Nat)), ((1 : Nat), (5 : Nat)))] 0 1
  have h2 := h.1 (1, 5) (by decide)
  exact ⟨h2.1.trans (by decide), h2.2.1⟩

/-! ### C9: applyChange idempotence -/

/-- C9: for every store and every reflexive structural equality, applying the
same change twice in a row through `applyChange` mutates the store only on the
first application: the second application leaves the store unchanged and
returns the boolean `false`. -/
theorem C9_applyChange_idempotent [DecidableEq Coll] [DecidableEq Id]
    (ops : EngineOps Coll Id Doc Patch)
    (hrefl : ∀ d, ops.isEqual d d = true)
    (s : Store Coll Id Doc) (ty : DbChangeType) (c : Coll) (d : Doc) :
    (applyChange ops (applyChange ops s ty c d).2 ty c d).2 = (applyChange ops s ty c d).2 ∧
    (applyChange ops (applyChange ops s ty c d).2 ty c d).1 = JsRet.bool false := by
  cases ty with
  | delete =>
    rcases h : storeGet s c (ops.getId d) with _ | oldDoc
    · simp [applyChange, applyDelete, h]
    · have h2 : storeGet (storeDel s c (ops.getId d)) c (ops.getId d) = none := by
        simp [storeGet, storeDel, mapGet_mapDel_self]
      simp [applyChange, applyDelete, h, h2]
  | set =>
    have hself : storeGet (storeSet ops s c d) c (ops.getId d) = some d := by
      simp [storeGet, storeSet, mapGet_mapSet_self]
    rcases h : storeGet s c (ops.getId d) with _ | oldDoc
    · simp [applyChange, applySet, h, hself, hrefl]
    · by_cases he : ops.isEqual d oldDoc
      · simp [applyChange, applySet, h, he]
      · simp [applyChange, applySet, h, he, hself, hrefl]

theorem C9_applyChange_idempotent_witness :
    (applyChange ops0 (applyChange ops0 [] .set 0 (1, 5)).2 .set 0 (1, 5)).2 =
      (applyChange ops0 [] .set 0 (1, 5)).2 ∧
    (applyChange ops0 (applyChange ops0 [] .set 0 (1, 5)).2 .set 0 (1, 5)).1 =
      JsRet.bool false := by
  exact C9_applyChange_idempotent ops0 (fun d => by simp [ops0]) [] .set 0 (1, 5)

/-! ### C7: the applyingWorkerChanges flag -/

theorem workerChangedGo_flag [DecidableEq Coll] [DecidableEq Id] [DecidableEq ChangeId]
    (ops : EngineOps Coll Id Doc Patch)
    (applyFails : WorkerChange Coll Doc ChangeId → Bool)
    (chs : List (WorkerChange Coll Doc ChangeId)) (s : CState Coll Id Doc ChangeId) :
    (SyncClient.workerChangedGo ops applyFails s chs).1.applyingWorkerChanges =
      (if (SyncClient.workerChangedGo ops applyFails s chs).2 = true
        then s.applyingWorkerChanges else false) := by
  induction chs generalizing s with
  | nil => simp [SyncClient.workerChangedGo]
  | cons ch rest ih =>
    simp only [SyncClient.workerChangedGo]
    by_cases hr :
        (OptimisticChangeIds.remove s.trackedIds (ops.getId (wcDoc ch)) (wcId ch)).1 = true
    · by_cases hf : applyFails ch = true
      · simp [hr, hf]
      · simp only [hr, hf, if_true, if_false, Bool.false_eq_true]
        exact ih _
    · simp only [hr, if_false, Bool.false_eq_true]
      exact ih _

/-- C7 fails as stated: `workerChanged` has no try/finally, so when applying a
change to the client replica throws, the exception propagates with
`applyingWorkerChanges` left `true`. Concretely: starting from an idle client
agent, a single worker change whose application throws leaves the flag set. -/
theorem C7_counterexample :
    (SyncClient.workerChanged ops0 (fun _ => true)
      (⟨[], [], false⟩ : CState Nat Nat (Nat × Nat) Nat)
      [WorkerChange.set none 0 (1, 5)]).2 = true ∧
    (SyncClient.workerChanged ops0 (fun _ => true)
      (⟨[], [], false⟩ : CState Nat Nat (Nat × Nat) Nat)
      [WorkerChange.set none 0 (1, 5)]).1.applyingWorkerChanges = true := by
  decide

/-- C7 (amended): `workerChanged` sets the flag for the duration of its loop
and restores it to `false` whenever the loop completes without an apply
throwing; when an individual apply throws, the exception propagates and the
flag remains `true` (the normal-path reset is never reached). -/
theorem C7_flag_amended [DecidableEq Coll] [DecidableEq Id] [DecidableEq ChangeId]
    (ops : EngineOps Coll Id Doc Patch)
    (applyFails : WorkerChange Coll Doc ChangeId → Bool)
    (s : CState Coll Id Doc ChangeId) (chs : List (WorkerChange Coll Doc ChangeId)) :
    ((SyncClient.workerChanged ops applyFails s chs).2 = false →
      (SyncClient.workerChanged ops applyFails s chs).1.applyingWorkerChanges = false) ∧
    ((SyncClient.workerChanged ops applyFails s chs).2 = true →
      (SyncClient.workerChanged ops applyFails s chs).1.applyingWorkerChanges = true) := by
  have h := workerChangedGo_flag ops applyFails chs { s with applyingWorkerChanges := true }
  constructor <;> intro hb <;>
    simp only [SyncClient.workerChanged] at hb ⊢ <;> rw [h, hb] <;> simp

theorem C7_flag_amended_witness :
    (SyncClient.workerChanged ops0 (fun _ => false)
      (⟨[], [], false⟩ : CState Nat Nat (Nat × Nat) Nat)
      [WorkerChange.set none 0 (1, 5)]).1.applyingWorkerChanges = false := by
  exact (C7_flag_amended ops0 (fun _ => false) ⟨[], [], false⟩
    [WorkerChange.set none 0 (1, 5)]).1 (by decide)

/-! ### C3: pending local upsert wins over a remote delete -/

/-- C3: when a document has a pending local upsert record and no save is in
flight, processing a server-originated delete for that document through
`changed` leaves the whole engine state unchanged (worker replica and
`pendingLocal` alike) and emits nothing. -/
theorem C3_upsert_wins_over_remote_delete [DecidableEq Coll] [DecidableEq Id]
    (ops : EngineOps Coll Id Doc Patch)
    (s : WState Coll Id Doc ChangeId Patch)
    (c : Coll) (sdoc : Doc) (did : Id)
    (chid : ChangeId) (cu : Coll) (du : Doc) (pu : List Patch)
    (hps : s.pendingServer = none)
    (hid : ops.getId sdoc = did)
    (hcc : mapGet s.clientChanges did = some (OptimisticChange.upsert chid cu du pu)) :
    SyncWorker.changed ops s [ServerChange.delete c sdoc] = (s, none) := by
  obtain ⟨db, cc, pc, ps⟩ := s
  simp only at hps hcc
  subst hps
  simp [SyncWorker.changed, SyncWorker.serverRun, SyncWorker.serverStep,
    hid, hcc, emitOpt]

theorem C3_upsert_wins_over_remote_delete_witness :
    SyncWorker.changed ops0
      (⟨[((0, 1), (1, 5))], [(1, OptimisticChange.upsert 9 0 (1, 5) [2])], none, none⟩ :
        WState Nat Nat (Nat × Nat) Nat Nat)
      [ServerChange.delete 0 (1, 5)] =
      (⟨[((0, 1), (1, 5))], [(1, OptimisticChange.upsert 9 0 (1, 5) [2])], none, none⟩, none) := by
  exact C3_upsert_wins_over_remote_delete ops0 _ 0 (1, 5) 1 9 0 (1, 5) [2]
    rfl rfl (by decide)

/-! ### C5: patch journal accumulation -/

/-- C5: with no save in flight and no pending record for the document,
two successive local upserts for the same document id leave a `pendingLocal`
upsert record whose patch list is the concatenation of both patch lists and
whose change id and document are those of the second upsert. -/
theorem C5_patch_accumulation [DecidableEq Coll] [DecidableEq Id]
    (ops : EngineOps Coll Id Doc Patch)
    (s : WState Coll Id Doc ChangeId Patch)
    (d : Id) (id1 id2 : ChangeId) (c1 c2 : Coll) (doc1 doc2 : Doc) (p1 p2 : List Patch)
    (hpc : s.pendingClient = none)
    (h1 : ops.getId doc1 = d) (h2 : ops.getId doc2 = d)
    (h0 : mapGet s.clientChanges d = none) :
    mapGet ((SyncWorker.clientChanged ops
        (SyncWorker.clientChanged ops s [OptimisticChange.upsert id1 c1 doc1 p1]).1
        [OptimisticChange.upsert id2 c2 doc2 p2]).1.clientChanges) d =
      some (OptimisticChange.upsert id2 c2 doc2 (p1 ++ p2)) := by
  simp [SyncWorker.clientChanged, hpc, SyncWorker.clientRun, SyncWorker.clientStep,
    h1, h2, h0, mapGet_mapSet_self]

theorem C5_patch_accumulation_witness :
    mapGet ((SyncWorker.clientChanged ops0
        (SyncWorker.clientChanged ops0
          (⟨[], [], none, none⟩ : WState Nat Nat (Nat × Nat) Nat Nat)
          [OptimisticChange.upsert 7 0 (1, 5) [2]]).1
        [OptimisticChange.upsert 8 0 (1, 9) [3]]).1.clientChanges) 1 =
      some (OptimisticChange.upsert 8 0 (1, 9) [2, 3]) := by
  exact C5_patch_accumulation ops0 ⟨[], [], none, none⟩ 1 7 8 0 0 (1, 5) (1, 9) [2] [3]
    rfl rfl rfl rfl

/-! ### C6: compaction protects in-flight edits -/

/-- C6: with worker documents at ids i1, i2, i3 in a collection, a pending
local upsert record for i1 and no other pending record, compacting against
the known-id set containing only i3 deletes i2 (reporting the deletion
outward) while i1 survives because its pending local upsert wins over the
implied delete; the collection then holds exactly i1 and i3. -/
theorem C6_compact_protects [DecidableEq Coll] [DecidableEq Id]
    (ops : EngineOps Coll Id Doc Patch)
    (c : Coll) (i1 i2 i3 : Id) (d1 d2 d3 : Doc)
    (chid : ChangeId) (cu : Coll) (du : Doc) (pu : List Patch)
    (pc : Option (List (OptimisticChange Coll Doc ChangeId Patch)))
    (h12 : i1 ≠ i2) (h13 : i1 ≠ i3) (h23 : i2 ≠ i3)
    (g1 : ops.getId (ops.clean d1) = i1)
    (g2 : ops.getId (ops.clean d2) = i2) :
    SyncWorker.compact ops
      (⟨[((c, i1), d1), ((c, i2), d2), ((c, i3), d3)],
        [(i1, OptimisticChange.upsert chid cu du pu)], pc, none⟩ :
        WState Coll Id Doc ChangeId Patch) c [i3] =
      (⟨[((c, i1), d1), ((c, i3), d3)],
        [(i1, OptimisticChange.upsert chid cu du pu)], pc, none⟩,
       some [WorkerChange.delete none c (ops.clean d2)]) := by
  have h21 : ¬ i2 = i1 := fun h => h12 h.symm
  have h31 : ¬ i3 = i1 := fun h => h13 h.symm
  have h32 : ¬ i3 = i2 := fun h => h23 h.symm
  simp [SyncWorker.compact, storeIds, storeGet, storeDel, SyncWorker.changed,
    SyncWorker.serverRun, SyncWorker.serverStep, applyChange, applyDelete, jsTruthy,
    mapGet, mapDel, mapSet, emitOpt, List.filter, List.filterMap,
    g1, g2, h12, h13, h23, h21, h31, h32]

theorem C6_compact_protects_witness :
    SyncWorker.compact ops0
      (⟨[((0, 1), (1, 0)), ((0, 2), (2, 0)), ((0, 3), (3, 0))],
        [(1, OptimisticChange.upsert 9 0 (1, 0) [])], none, none⟩ :
        WState Nat Nat (Nat × Nat) Nat Nat) 0 [3] =
      (⟨[((0, 1), (1, 0)), ((0, 3), (3, 0))],
        [(1, OptimisticChange.upsert 9 0 (1, 0) [])], none, none⟩,
       some [WorkerChange.delete none 0 (2, 0)]) := by
  exact C6_compact_protects ops0 0 1 2 3 (1, 0) (2, 0) (3, 0) 9 0 (1, 0) [] none
    (by decide) (by decide) (by decide) rfl rfl

/-! ### C10: outgoing batches are keyed by document id -/

theorem clientStep_out_shape [DecidableEq Coll] [DecidableEq Id]
    (ops : EngineOps Coll Id Doc Patch)
    (acc : Store Coll Id Doc ×
      List (Id × OptimisticChange Coll Doc ChangeId Patch) ×
      List (Id × WorkerChange Coll Doc ChangeId))
    (oc : OptimisticChange Coll Doc ChangeId Patch) :
    (SyncWorker.clientStep ops acc oc).2.2 = acc.2.2 ∨
    ∃ k v, (SyncWorker.clientStep ops acc oc).2.2 = mapSet acc.2.2 k v := by
  obtain ⟨db, cc, out⟩ := acc
  cases oc with
  | delete chid c doc => exact Or.inl rfl
  | upsert chid c doc patches =>
    rcases h : storeGet db c (ops.getId doc) with _ | oldDoc
    · simp only [SyncWorker.clientStep, h]
      exact Or.inl trivial
    · simp only [SyncWorker.clientStep, h]
      by_cases he : ops.isEqual (ops.applyPatches oldDoc patches) doc = true
      · simp only [he, if_true]
        exact Or.inl trivial
      · simp only [he, if_false]
        exact Or.inr ⟨_, _, rfl⟩

theorem clientStep_cc_shape [DecidableEq Coll] [DecidableEq Id]
    (ops : EngineOps Coll Id Doc Patch)
    (acc : Store Coll Id Doc ×
      List (Id × OptimisticChange Coll Doc ChangeId Patch) ×
      List (Id × WorkerChange Coll Doc ChangeId))
    (oc : OptimisticChange Coll Doc ChangeId Patch) :
    ∃ k v, (SyncWorker.clientStep ops acc oc).2.1 = mapSet acc.2.1 k v := by
  obtain ⟨db, cc, out⟩ := acc
  cases oc with
  | delete chid c doc => exact ⟨_, _, rfl⟩
  | upsert chid c doc patches => exact ⟨_, _, rfl⟩

theorem serverStep_out_shape [DecidableEq Coll] [DecidableEq Id]
    (ops : EngineOps Coll Id Doc Patch)
    (cc : List (Id × OptimisticChange Coll Doc ChangeId Patch))
    (acc : Store Coll Id Doc × List (Id × WorkerChange Coll Doc ChangeId))
    (sc : ServerChange Coll Doc) :
    (SyncWorker.serverStep ops cc acc sc).2 = acc.2 ∨
    ∃ k v, (SyncWorker.serverStep ops cc acc sc).2 = mapSet acc.2 k v := by
  cases sc with
  | set c doc =>
    rcases h : mapGet cc (ops.getId doc) with _ | u
    · simp only [SyncWorker.serverStep, h]
      by_cases ht : jsTruthy (applyChange ops acc.1 .set c doc).1 = true
      · simp only [ht, if_true]
        exact Or.inr ⟨_, _, rfl⟩
      · simp only [ht, if_false]
        exact Or.inl rfl
    · cases u with
      | upsert chid cu ccDoc patches =>
        simp only [SyncWorker.serverStep, h]
        by_cases he : ops.isEqual (ops.applyPatches doc patches) ccDoc = true
        · simp only [he, if_true]
          exact Or.inl trivial
        · simp only [he, if_false]
          exact Or.inr ⟨_, _, rfl⟩
      | delete chid cu ccDoc =>
        simp only [SyncWorker.serverStep, h]
        exact Or.inl trivial
  | delete c doc =>
    rcases h : mapGet cc (ops.getId doc) with _ | u
    · simp only [SyncWorker.serverStep, h]
      by_cases ht : jsTruthy (applyChange ops acc.1 .delete c doc).1 = true
      · simp only [ht, if_true]
        exact Or.inr ⟨_, _, rfl⟩
      · simp only [ht, if_false]
        exact Or.inl rfl
    · simp only [SyncWorker.serverStep, h]
      exact Or.inl trivial

theorem clientFold_out_keysND [DecidableEq Coll] [DecidableEq Id]
    (ops : EngineOps Coll Id Doc Patch) :
    ∀ (ocs : List (OptimisticChange Coll Doc ChangeId Patch))
      (acc : Store Coll Id Doc ×
        List (Id × OptimisticChange Coll Doc ChangeId Patch) ×
        List (Id × WorkerChange Coll Doc ChangeId)),
      keysND acc.2.2 → keysND ((ocs.foldl (SyncWorker.clientStep ops) acc).2.2) := by
  intro ocs
  induction ocs with
  | nil => intro acc h; exact h
  | cons oc rest ih =>
    intro acc h
    rw [List.foldl_cons]
    apply ih
    rcases clientStep_out_shape ops acc oc with hs | ⟨k, v, hs⟩
    · rw [hs]; exact h
    · rw [hs]; exact mapSet_keysND _ _ _ h

theorem clientFold_cc_isSome [DecidableEq Coll] [DecidableEq Id]
    (ops : EngineOps Coll Id Doc Patch) :
    ∀ (ocs : List (OptimisticChange Coll Doc ChangeId Patch))
      (acc : Store Coll Id Doc ×
        List (Id × OptimisticChange Coll Doc ChangeId Patch) ×
        List (Id × WorkerChange Coll Doc ChangeId))
      (d : Id),
      (mapGet acc.2.1 d).isSome →
      (mapGet ((ocs.foldl (SyncWorker.clientStep ops) acc).2.1) d).isSome := by
  intro ocs
  induction ocs with
  | nil => intro acc d h; exact h
  | cons oc rest ih =>
    intro acc d h
    rw [List.foldl_cons]
    apply ih
    rcases clientStep_cc_shape ops acc oc with ⟨k, v, hs⟩
    rw [hs]
    exact mapGet_mapSet_isSome _ _ _ _ h

theorem serverFold_out_keysND [DecidableEq Coll] [DecidableEq Id]
    (ops : EngineOps Coll Id Doc Patch)
    (cc : List (Id × OptimisticChange Coll Doc ChangeId Patch)) :
    ∀ (scs : List (ServerChange Coll Doc))
      (acc : Store Coll Id Doc × List (Id × WorkerChange Coll Doc ChangeId)),
      keysND acc.2 → keysND ((scs.foldl (SyncWorker.serverStep ops cc) acc).2) := by
  intro scs
  induction scs with
  | nil => intro acc h; exact h
  | cons sc rest ih =>
    intro acc h
    rw [List.foldl_cons]
    apply ih
    rcases serverStep_out_shape ops cc acc sc with hs | ⟨k, v, hs⟩
    · rw [hs]; exact h
    · rw [hs]; exact mapSet_keysND _ _ _ h

theorem emitOpt_ne_some_nil (l : List α) (l' : List α)
    (h : emitOpt l = some l') : l' ≠ [] := by
  rw [emitOpt] at h
  by_cases he : l.isEmpty
  · rw [if_pos he] at h
    cases h
  · rw [if_neg he] at h
    cases h
    intro hnil
    rw [hnil] at he
    exact he rfl

/-- C10: every outgoing batch of the engine is keyed by document id — the
`workerChangesById` maps built by `clientChanged` and `changed` have pairwise
distinct keys, so at most one worker change per document id is emitted; an
empty batch is never emitted; and when two changes in one incoming batch
produce emissions for the same document id, only the most recently computed
one appears (a JS Map `set` on an existing key overwrites its value in place),
as the concrete two-set batch shows. -/
theorem C10_batch_keying [DecidableEq Coll] [DecidableEq Id]
    (ops : EngineOps Coll Id Doc Patch)
    (db : Store Coll Id Doc)
    (cc : List (Id × OptimisticChange Coll Doc ChangeId Patch))
    (ocs : List (OptimisticChange Coll Doc ChangeId Patch))
    (scs : List (ServerChange Coll Doc))
    (s : WState Coll Id Doc ChangeId Patch) :
    keysND ((SyncWorker.clientRun ops db cc ocs).2.2) ∧
    keysND ((SyncWorker.serverRun ops cc db scs).2) ∧
    (∀ l, (SyncWorker.clientChanged ops s ocs).2 = some l → l ≠ []) ∧
    (∀ l, (SyncWorker.changed ops s scs).2 = some l → l ≠ []) ∧
    SyncWorker.changed ops0 (⟨[], [], none, none⟩ : WState Nat Nat (Nat × Nat) Nat Nat)
        [ServerChange.set 0 (1, 5), ServerChange.set 0 (1, 7)] =
      (⟨[((0, 1), (1, 7))], [], none, none⟩, some [WorkerChange.set none 0 (1, 7)]) := by
  refine ⟨?_, ?_, ?_, ?_, by decide⟩
  · exact clientFold_out_keysND ops ocs (db, cc, []) (by simp [keysND])
  · exact serverFold_out_keysND ops cc scs (db, []) (by simp [keysND])
  · intro l hl
    rcases hpc : s.pendingClient with _ | buf
    · simp only [SyncWorker.clientChanged, hpc] at hl
      exact emitOpt_ne_some_nil _ _ hl
    · simp only [SyncWorker.clientChanged, hpc] at hl
      cases hl
  · intro l hl
    rcases hps : s.pendingServer with _ | buf
    · simp only [SyncWorker.changed, hps] at hl
      exact emitOpt_ne_some_nil _ _ hl
    · simp only [SyncWorker.changed, hps] at hl
      cases hl

theorem C10_batch_keying_witness :
    keysND ((SyncWorker.clientRun ops0 [] []
      [OptimisticChange.upsert 7 0 ((1 : Nat), (5 : Nat)) [2]]).2.2) ∧
    ([WorkerChange.set (none : Option Nat) (0 : Nat) ((1 : Nat), (7 : Nat))] ≠ []) := by
  have h := C10_batch_keying ops0 [] []
    [OptimisticChange.upsert 7 0 ((1 : Nat), (5 : Nat)) [2]]
    [ServerChange.set 0 (1, 5), ServerChange.set 0 (1, 7)]
    (⟨[], [], none, none⟩ : WState Nat Nat (Nat × Nat) Nat Nat)
  exact ⟨h.1, h.2.2.2.1 [WorkerChange.set none 0 (1, 7)] (by decide)⟩

/-! ### Buffering and save: supporting lemmas -/

theorem clientChanged_buffered [DecidableEq Coll] [DecidableEq Id]
    (ops : EngineOps Coll Id Doc Patch) (s : WState Coll Id Doc ChangeId Patch)
    (q : List (OptimisticChange Coll Doc ChangeId Patch))
    (ocs : List (OptimisticChange Coll Doc ChangeId Patch))
    (h : s.pendingClient = some q) :
    SyncWorker.clientChanged ops s ocs = ({ s with pendingClient := some (q ++ ocs) }, none) := by
  simp [SyncWorker.clientChanged, h]

theorem changed_buffered [DecidableEq Coll] [DecidableEq Id]
    (ops : EngineOps Coll Id Doc Patch) (s : WState Coll Id Doc ChangeId Patch)
    (q : List (ServerChange Coll Doc)) (scs : List (ServerChange Coll Doc))
    (h : s.pendingServer = some q) :
    SyncWorker.changed ops s scs = ({ s with pendingServer := some (q ++ scs) }, none) := by
  simp [SyncWorker.changed, h]

theorem collectC_append (a b : List (SyncWorker.ArrEvent Coll Doc ChangeId Patch)) :
    SyncWorker.collectC (a ++ b) = SyncWorker.collectC a ++ SyncWorker.collectC b := by
  induction a with
  | nil => simp [SyncWorker.collectC]
  | cons e rest ih =>
    cases e with
    | client bch => simp [SyncWorker.collectC, ih]
    | server bch => simp [SyncWorker.collectC, ih]

theorem collectS_append (a b : List (SyncWorker.ArrEvent Coll Doc ChangeId Patch)) :
    SyncWorker.collectS (a ++ b) = SyncWorker.collectS a ++ SyncWorker.collectS b := by
  induction a with
  | nil => simp [SyncWorker.collectS]
  | cons e rest ih =>
    cases e with
    | client bch => simp [SyncWorker.collectS, ih]
    | server bch => simp [SyncWorker.collectS, ih]

/-- While both buffers are non-null, delivering any sequence of notifications
only appends the contained batches to the corresponding buffers: the worker
store and the pending-change table are untouched and nothing is emitted. -/
theorem processEvents_buffered [DecidableEq Coll] [DecidableEq Id]
    (ops : EngineOps Coll Id Doc Patch) :
    ∀ (evs : List (SyncWorker.ArrEvent Coll Doc ChangeId Patch))
      (db : Store Coll Id Doc)
      (cc : List (Id × OptimisticChange Coll Doc ChangeId Patch))
      (a : List (OptimisticChange Coll Doc ChangeId Patch))
      (b : List (ServerChange Coll Doc)),
      SyncWorker.processEvents ops ⟨db, cc, some a, some b⟩ evs =
        (⟨db, cc, some (a ++ SyncWorker.collectC evs),
          some (b ++ SyncWorker.collectS evs)⟩, []) := by
  intro evs
  induction evs with
  | nil =>
    intro db cc a b
    simp [SyncWorker.processEvents, SyncWorker.collectC, SyncWorker.collectS]
  | cons e rest ih =>
    intro db cc a b
    cases e with
    | client bch =>
      simp only [SyncWorker.processEvents, SyncWorker.dispatch]
      rw [clientChanged_buffered ops _ a bch rfl]
      simp only []
      rw [ih]
      simp [SyncWorker.collectC, SyncWorker.collectS, List.append_assoc]
    | server bch =>
      simp only [SyncWorker.processEvents, SyncWorker.dispatch]
      rw [changed_buffered ops _ b bch rfl]
      simp only []
      rw [ih]
      simp [SyncWorker.collectC, SyncWorker.collectS, List.append_assoc]

/-- Complete characterisation of `save()`: the events arriving while the
collaborator saves are pending are only buffered, and after the save settles
the buffered client batches are replayed through `clientChanged` and then the
buffered server batches through `changed`, on the state whose pending table
was cleared exactly when both collaborator saves succeeded; the server batch
is the one built from the pre-save state, sent only when the worker save
succeeded; the returned promise resolves only when both saves did. -/
theorem save_spec [DecidableEq Coll] [DecidableEq Id]
    (ops : EngineOps Coll Id Doc Patch) (s : WState Coll Id Doc ChangeId Patch)
    (workerOk serverOk : Bool)
    (arr1 arr2 : List (SyncWorker.ArrEvent Coll Doc ChangeId Patch)) :
    SyncWorker.save ops s workerOk arr1 serverOk arr2 =
      { state := (SyncWorker.changed ops
          (SyncWorker.clientChanged ops
            ⟨s.workerDb, if workerOk && serverOk then [] else s.clientChanges, none, none⟩
            (SyncWorker.collectC (arr1 ++ if workerOk then arr2 else []))).1
          (SyncWorker.collectS (arr1 ++ if workerOk then arr2 else []))).1,
        emitted := (SyncWorker.clientChanged ops
            ⟨s.workerDb, if workerOk && serverOk then [] else s.clientChanges, none, none⟩
            (SyncWorker.collectC (arr1 ++ if workerOk then arr2 else []))).2.toList ++
          (SyncWorker.changed ops
            (SyncWorker.clientChanged ops
              ⟨s.workerDb, if workerOk && serverOk then [] else s.clientChanges, none, none⟩
              (SyncWorker.collectC (arr1 ++ if workerOk then arr2 else []))).1
            (SyncWorker.collectS (arr1 ++ if workerOk then arr2 else []))).2.toList,
        sent := if workerOk
          then some (SyncWorker.buildServerChanges ops s.workerDb s.clientChanges)
          else none,
        ok := workerOk && serverOk } := by
  cases workerOk with
  | false =>
    simp only [SyncWorker.save, Bool.false_and, if_neg (by simp : ¬ (false : Bool) = true)]
    rw [processEvents_buffered]
    simp [SyncWorker.drain, collectC_append, collectS_append, SyncWorker.collectC,
      SyncWorker.collectS]
  | true =>
    cases serverOk with
    | false =>
      simp only [SyncWorker.save, Bool.true_and, if_pos rfl,
        if_neg (by simp : ¬ (false : Bool) = true)]
      rw [processEvents_buffered]
      simp only []
      rw [processEvents_buffered]
      simp [SyncWorker.drain, collectC_append, collectS_append]
    | true =>
      simp only [SyncWorker.save, Bool.true_and, if_pos rfl]
      rw [processEvents_buffered]
      simp only []
      rw [processEvents_buffered]
      simp [SyncWorker.drain, collectC_append, collectS_append]

theorem clientChanged_pendings [DecidableEq Coll] [DecidableEq Id]
    (ops : EngineOps Coll Id Doc Patch) (s : WState Coll Id Doc ChangeId Patch)
    (ocs : List (OptimisticChange Coll Doc ChangeId Patch))
    (h : s.pendingClient = none) :
    (SyncWorker.clientChanged ops s ocs).1.pendingClient = none ∧
    (SyncWorker.clientChanged ops s ocs).1.pendingServer = s.pendingServer := by
  simp [SyncWorker.clientChanged, h]

theorem changed_fields [DecidableEq Coll] [DecidableEq Id]
    (ops : EngineOps Coll Id Doc Patch) (s : WState Coll Id Doc ChangeId Patch)
    (scs : List (ServerChange Coll Doc))
    (h : s.pendingServer = none) :
    (SyncWorker.changed ops s scs).1.pendingServer = none ∧
    (SyncWorker.changed ops s scs).1.pendingClient = s.pendingClient ∧
    (SyncWorker.changed ops s scs).1.clientChanges = s.clientChanges := by
  simp [SyncWorker.changed, h]

theorem clientChanged_cc_isSome [DecidableEq Coll] [DecidableEq Id]
    (ops : EngineOps Coll Id Doc Patch) (s : WState Coll Id Doc ChangeId Patch)
    (ocs : List (OptimisticChange Coll Doc ChangeId Patch)) (d : Id)
    (h : s.pendingClient = none)
    (hd : (mapGet s.clientChanges d).isSome) :
    (mapGet (SyncWorker.clientChanged ops s ocs).1.clientChanges d).isSome := by
  simp only [SyncWorker.clientChanged, h]
  exact clientFold_cc_isSome ops ocs (s.workerDb, s.clientChanges, []) d hd

/-! ### C1: buffering correctness -/

/-- C1: while a save is pending (both buffer queues non-null), a
`clientChanged` or `changed` notification only appends its batch to the
corresponding buffer — no worker-store mutation, no pending-table update, no
emission; and every `save()`, on success and on failure alike, ends with both
buffers null again after draining them exactly once, replaying the buffered
local batches through `clientChanged` first and then the buffered remote
batches through `changed`. -/
theorem C1_buffering [DecidableEq Coll] [DecidableEq Id]
    (ops : EngineOps Coll Id Doc Patch) (s : WState Coll Id Doc ChangeId Patch)
    (qc : List (OptimisticChange Coll Doc ChangeId Patch))
    (qs : List (ServerChange Coll Doc))
    (ocs : List (OptimisticChange Coll Doc ChangeId Patch))
    (scs : List (ServerChange Coll Doc))
    (workerOk serverOk : Bool)
    (arr1 arr2 : List (SyncWorker.ArrEvent Coll Doc ChangeId Patch)) :
    (s.pendingClient = some qc → s.pendingServer = some qs →
      SyncWorker.clientChanged ops s ocs =
        ({ s with pendingClient := some (qc ++ ocs) }, none)) ∧
    (s.pendingClient = some qc → s.pendingServer = some qs →
      SyncWorker.changed ops s scs =
        ({ s with pendingServer := some (qs ++ scs) }, none)) ∧
    ((SyncWorker.save ops s workerOk arr1 serverOk arr2).state =
      (SyncWorker.changed ops
        (SyncWorker.clientChanged ops
          ⟨s.workerDb, if workerOk && serverOk then [] else s.clientChanges, none, none⟩
          (SyncWorker.collectC (arr1 ++ if workerOk then arr2 else []))).1
        (SyncWorker.collectS (arr1 ++ if workerOk then arr2 else []))).1 ∧
     (SyncWorker.save ops s workerOk arr1 serverOk arr2).emitted =
      (SyncWorker.clientChanged ops
          ⟨s.workerDb, if workerOk && serverOk then [] else s.clientChanges, none, none⟩
          (SyncWorker.collectC (arr1 ++ if workerOk then arr2 else []))).2.toList ++
        (SyncWorker.changed ops
          (SyncWorker.clientChanged ops
            ⟨s.workerDb, if workerOk && serverOk then [] else s.clientChanges, none, none⟩
            (SyncWorker.collectC (arr1 ++ if workerOk then arr2 else []))).1
          (SyncWorker.collectS (arr1 ++ if workerOk then arr2 else []))).2.toList ∧
     (SyncWorker.save ops s workerOk arr1 serverOk arr2).ok = (workerOk && serverOk) ∧
     (SyncWorker.save ops s workerOk arr1 serverOk arr2).state.pendingClient = none ∧
     (SyncWorker.save ops s workerOk arr1 serverOk arr2).state.pendingServer = none) := by
  refine ⟨fun h _ => clientChanged_buffered ops s qc ocs h,
    fun _ h => changed_buffered ops s qs scs h, ?_⟩
  rw [save_spec]
  set s0 : WState Coll Id Doc ChangeId Patch :=
    ⟨s.workerDb, if workerOk && serverOk then [] else s.clientChanges, none, none⟩ with hs0
  set evl := SyncWorker.collectC (arr1 ++ if workerOk then arr2 else []) with hevl
  set evr := SyncWorker.collectS (arr1 ++ if workerOk then arr2 else []) with hevr
  have hp := clientChanged_pendings ops s0 evl rfl
  have hq := changed_fields ops (SyncWorker.clientChanged ops s0 evl).1 evr
    (hp.2.trans rfl)
  refine ⟨rfl, rfl, rfl, ?_, hq.1⟩
  rw [hq.2.1]
  exact hp.1

theorem C1_buffering_witness :
    SyncWorker.clientChanged ops0
      (⟨[], [], some [], some []⟩ : WState Nat Nat (Nat × Nat) Nat Nat)
      [OptimisticChange.upsert 7 0 (1, 5) [2]] =
      (⟨[], [], some [OptimisticChange.upsert 7 0 (1, 5) [2]], some []⟩, none) ∧
    SyncWorker.changed ops0
      (⟨[], [], some [], some []⟩ : WState Nat Nat (Nat × Nat) Nat Nat)
      [ServerChange.set 0 (1, 5)] =
      (⟨[], [], some [], some [ServerChange.set 0 (1, 5)]⟩, none) := by
  have h := C1_buffering ops0 (⟨[], [], some [], some []⟩ : WState Nat Nat (Nat × Nat) Nat Nat)
    [] [] [OptimisticChange.upsert 7 0 (1, 5) [2]] [ServerChange.set 0 (1, 5)]
    true true [] []
  exact ⟨h.1 rfl rfl, h.2.1 rfl rfl⟩

/-! ### C2: save failure semantics -/

/-- C2: when the worker-replica save rejects, `save()` rejects, the server
replica's save is never invoked, and no entry is removed from the pending
table (it is exactly preserved when nothing arrived meanwhile, and every
previously pending document id is still pending in general); when the server
replica's save rejects, `save()` rejects with the batch already sent and the
pending table is likewise preserved. In both failure cases buffering mode is
exited (both buffers null again, the buffered events having been replayed). -/
theorem C2_save_failure [DecidableEq Coll] [DecidableEq Id]
    (ops : EngineOps Coll Id Doc Patch) (s : WState Coll Id Doc ChangeId Patch)
    (serverOk : Bool)
    (arr1 arr2 : List (SyncWorker.ArrEvent Coll Doc ChangeId Patch)) :
    ((SyncWorker.save ops s false arr1 serverOk arr2).ok = false ∧
     (SyncWorker.save ops s false arr1 serverOk arr2).sent = none ∧
     (SyncWorker.save ops s false arr1 serverOk arr2).state.pendingClient = none ∧
     (SyncWorker.save ops s false arr1 serverOk arr2).state.pendingServer = none ∧
     (∀ d, (mapGet s.clientChanges d).isSome →
       (mapGet (SyncWorker.save ops s false arr1 serverOk arr2).state.clientChanges d).isSome) ∧
     (arr1 = [] →
       (SyncWorker.save ops s false arr1 serverOk arr2).state.clientChanges =
         s.clientChanges)) ∧
    ((SyncWorker.save ops s true arr1 false arr2).ok = false ∧
     (SyncWorker.save ops s true arr1 false arr2).sent =
       some (SyncWorker.buildServerChanges ops s.workerDb s.clientChanges) ∧
     (SyncWorker.save ops s true arr1 false arr2).state.pendingClient = none ∧
     (SyncWorker.save ops s true arr1 false arr2).state.pendingServer = none ∧
     (∀ d, (mapGet s.clientChanges d).isSome →
       (mapGet (SyncWorker.save ops s true arr1 false arr2).state.clientChanges d).isSome) ∧
     (arr1 = [] → arr2 = [] →
       (SyncWorker.save ops s true arr1 false arr2).state.clientChanges =
         s.clientChanges)) := by
  constructor
  · have hs1 := save_spec ops s false serverOk arr1 arr2
    simp only [Bool.false_and, Bool.false_eq_true, if_false, List.append_nil] at hs1
    rw [hs1]
    set s0 : WState Coll Id Doc ChangeId Patch :=
      ⟨s.workerDb, s.clientChanges, none, none⟩ with hs0
    set evl := SyncWorker.collectC arr1 with hevl
    set evr := SyncWorker.collectS arr1 with hevr
    have hp := clientChanged_pendings ops s0 evl rfl
    have hq := changed_fields ops (SyncWorker.clientChanged ops s0 evl).1 evr
      (hp.2.trans rfl)
    refine ⟨rfl, rfl, hq.2.1.trans hp.1, hq.1, ?_, ?_⟩
    · intro d hd
      rw [hq.2.2]
      exact clientChanged_cc_isSome ops s0 evl d rfl hd
    · intro h1
      subst h1
      simp [hevl, hevr, SyncWorker.collectC, SyncWorker.collectS, SyncWorker.changed,
        SyncWorker.clientChanged, SyncWorker.clientRun, SyncWorker.serverRun, emitOpt]
  · have hs1 := save_spec ops s true false arr1 arr2
    simp only [Bool.and_false, Bool.false_eq_true, if_false, if_true,
      Bool.true_eq_false] at hs1
    rw [hs1]
    set s0 : WState Coll Id Doc ChangeId Patch :=
      ⟨s.workerDb, s.clientChanges, none, none⟩ with hs0
    set evl := SyncWorker.collectC (arr1 ++ arr2) with hevl
    set evr := SyncWorker.collectS (arr1 ++ arr2) with hevr
    have hp := clientChanged_pendings ops s0 evl rfl
    have hq := changed_fields ops (SyncWorker.clientChanged ops s0 evl).1 evr
      (hp.2.trans rfl)
    refine ⟨rfl, rfl, hq.2.1.trans hp.1, hq.1, ?_, ?_⟩
    · intro d hd
      rw [hq.2.2]
      exact clientChanged_cc_isSome ops s0 evl d rfl hd
    · intro h1 h2
      subst h1; subst h2
      simp [hevl, hevr, SyncWorker.collectC, SyncWorker.collectS, SyncWorker.changed,
        SyncWorker.clientChanged, SyncWorker.clientRun, SyncWorker.serverRun, emitOpt]

theorem C2_save_failure_witness :
    (SyncWorker.save ops0
      (⟨[], [(1, OptimisticChange.upsert 7 0 ((1 : Nat), (5 : Nat)) [2])], none, none⟩ :
        WState Nat Nat (Nat × Nat) Nat Nat) false [] true []).ok = false ∧
    (SyncWorker.save ops0
      (⟨[], [(1, OptimisticChange.upsert 7 0 ((1 : Nat), (5 : Nat)) [2])], none, none⟩ :
        WState Nat Nat (Nat × Nat) Nat Nat) false [] true []).sent = none ∧
    (mapGet (SyncWorker.save ops0
      (⟨[], [(1, OptimisticChange.upsert 7 0 ((1 : Nat), (5 : Nat)) [2])], none, none⟩ :
        WState Nat Nat (Nat × Nat) Nat Nat) false [] true []).state.clientChanges 1).isSome := by
  have h := C2_save_failure ops0
    (⟨[], [(1, OptimisticChange.upsert 7 0 ((1 : Nat), (5 : Nat)) [2])], none, none⟩ :
      WState Nat Nat (Nat × Nat) Nat Nat) true [] []
  exact ⟨h.1.1, h.1.2.1, h.1.2.2.2.2.1 1 (by decide)⟩

end SyncW
